import Mathlib

/-!
Verification of the two-phase product-harvesting pipeline
(`collect_all_urls.py` and `scrape_urls_products.py`).

The Python source is shallowly embedded: pure string manipulation is
modelled on `String`/`List Char`, the stateful orchestrator loops become
explicit folds over run state, and network results (collector output,
per-URL scrape outcomes) are parameters of the model.
-/

/- ## Shared string helpers

Python's `pat in s` substring test, `s.lower()` and `s.strip()` are
modelled on the character list of the string. -/

/-- Does `pat` occur as a contiguous substring of `l`?  Model of Python's
`pat in s` on character lists. -/
def substrScan (pat : List Char) : List Char → Bool
  | [] => pat.isEmpty
  | c :: t => pat.isPrefixOf (c :: t) || substrScan pat t

/-- Python `pat in s` for strings. -/
def strIn (pat s : String) : Bool := substrScan pat.data s.data

/-- Python `s.lower()` (ASCII case folding, which is all the sources use). -/
def lowerStr (s : String) : String := String.mk (s.data.map Char.toLower)

/-- Python `s.strip()`: drop leading and trailing whitespace. -/
def trimStr (s : String) : String :=
  String.mk (((s.data.dropWhile Char.isWhitespace).reverse.dropWhile
    Char.isWhitespace).reverse)

/- ## `scrape_urls_products.py` helpers -/

/-- Keyword group for the `Printer` category
(`scrape_urls_products.py`, `classify_product_type`). -/
def printer_keywords : List String :=
  ["printer", "laserjet", "inkjet", "multifunction", "all-in-one", "mfp"]

/-- Keyword group for the `Toner` category. -/
def toner_keywords : List String :=
  ["toner", "drum unit", "laser cartridge", "toner cartridge"]

/-- Keyword group for the `Ink` category. -/
def ink_keywords : List String :=
  ["ink", "ink bottle", "ink tank", "ink cartridge"]

/-- `classify_product_type` from `scrape_urls_products.py`: empty title is
`Other`; otherwise the lowercased title is tested against the printer,
toner and ink keyword groups in that order. -/
def classify_product_type (title : String) : String :=
  if title = "" then "Other"
  else if printer_keywords.any (fun k => strIn k (lowerStr title)) then "Printer"
  else if toner_keywords.any (fun k => strIn k (lowerStr title)) then "Toner"
  else if ink_keywords.any (fun k => strIn k (lowerStr title)) then "Ink"
  else "Other"

/-- Spec-side formulation used by the classifier claim: the keyword group
`kws` has a case-insensitive substring match in `title`. -/
def kwMatch (kws : List String) (title : String) : Bool :=
  kws.any (fun k => strIn k (lowerStr title))

/-- `pad_images` from `scrape_urls_products.py`: keep the truthy entries,
truncate to `max_n`, then append empty strings until length `max_n`. -/
def pad_images (imgs : List String) (max_n : Nat := 4) : List String :=
  (imgs.filter (fun i => i ≠ "")).take max_n ++
    List.replicate (max_n - ((imgs.filter (fun i => i ≠ "")).take max_n).length) ""

/- ## URL normalization (`collect_all_urls.py`, `collect_aliexpress_urls`)

`href.startswith("//")`, `href.startswith("/")` and `href.split("?")[0]`
modelled on character lists. -/

/-- Python `href.startswith("/")`. -/
def startsSlash (l : List Char) : Bool :=
  match l with
  | [] => false
  | c :: _ => c == '/'

/-- Python `href.startswith("//")`. -/
def startsSlashSlash (l : List Char) : Bool :=
  match l with
  | c :: d :: _ => c == '/' && d == '/'
  | _ => false

/-- Python `href.split("?")[0]`: everything before the first `?`. -/
def stripQuery (l : List Char) : List Char := l.takeWhile (fun c => c != '?')

/-- The base origin prepended to root-relative AliExpress hrefs. -/
def aliBase : List Char := "https://www.aliexpress.com".data

/-- Href canonicalization from `collect_aliexpress_urls` (lines 193-199):
protocol-relative resolution, then root-relative resolution against the
source base origin `base`, then query-string truncation. -/
def normalizeHref (base : List Char) (href : List Char) : List Char :=
  stripQuery
    (if startsSlashSlash href then "https:".data ++ href
     else if startsSlash href then base ++ href
     else href)

/- ## Phase 1: URL discovery (`collect_all_urls.py`, `main`)

The five collectors hit the network; their returned URL lists are a
parameter (`Feed`) of the model.  What the model keeps faithful is the
orchestrator: the brand x query-type x keyword-variant loop nest, the
per-source iteration order, and the global seen-set dedup fold. -/

/-- `BRANDS` from `collect_all_urls.py`. -/
def BRANDS : List String :=
  ["Brother", "Canon", "Epson", "HP", "Ricoh", "Samsung", "Xerox"]

/-- `QUERY_TYPES` from `collect_all_urls.py`. -/
def QUERY_TYPES : List String := ["printer", "toner", "ink"]

/-- `QUERY_VARIANTS.get(qtype, [qtype])` from `collect_all_urls.py`. -/
def QUERY_VARIANTS (q : String) : List String :=
  if q = "printer" then
    ["printer", "laser printer", "inkjet printer", "all in one printer",
     "wireless printer"]
  else if q = "toner" then
    ["toner", "toner cartridge", "laser toner", "drum unit"]
  else if q = "ink" then
    ["ink", "ink cartridge", "ink bottle", "ink tank", "photo printer ink"]
  else [q]

/-- The five source blocks of the main loop, in program order. -/
def sources5 : List String :=
  ["amazon", "ebay", "aliexpress", "harvey_norman", "challenger"]

/-- One row of the URL-phase output (`rows.append({...})` in
`collect_all_urls.py`). -/
structure UrlItem where
  url : String
  source : String
  brand : String
  qtype : String
deriving DecidableEq, Repr

/-- Network results: for (brand, keyword, source) the list of canonical
URLs returned by that source's collector. -/
abbrev Feed := String → String → String → List String

/-- The per-URL body of the main loop: `if u in seen_urls: continue;
seen_urls.add(u); rows.append(...)`.  The seen set is modelled as a list
with membership as the set test. -/
def step1 (st : List String × List UrlItem) (it : UrlItem) :
    List String × List UrlItem :=
  if it.url ∈ st.1 then st else (it.url :: st.1, st.2 ++ [it])

/-- All URLs one keyword-variant task feeds into the dedup loop, tagged
with source, brand and query type as the code tags them. -/
def taskItems (feed : Feed) (b q k : String) : List UrlItem :=
  sources5.flatMap (fun src =>
    (feed b k src).map (fun u => { url := u, source := src, brand := b, qtype := q }))

/-- A search task: (brand, query type, keyword variant). -/
abbrev SearchTask := String × String × String

/-- The full task enumeration of the loop nest: brand-major, query-type
next, variant-minor. -/
def allTasks : List SearchTask :=
  BRANDS.flatMap (fun b =>
    QUERY_TYPES.flatMap (fun q =>
      (QUERY_VARIANTS q).map (fun k => (b, q, k))))

/-- Processing of one keyword-variant task, also recording that the task
was executed.  The loop body runs unconditionally for every task. -/
def phase1Step (feed : Feed) (st : (List String × List UrlItem) × List SearchTask)
    (t : SearchTask) : (List String × List UrlItem) × List SearchTask :=
  (List.foldl step1 st.1 (taskItems feed t.1 t.2.1 t.2.2), st.2 ++ [t])

/-- The whole phase-1 run of `main`: fold the loop body over every task,
starting from an empty seen set and empty output. -/
def runPhase1 (feed : Feed) : (List String × List UrlItem) × List SearchTask :=
  List.foldl (phase1Step feed) (([], []), []) allTasks

/-- The tasks whose loop body was executed during the run. -/
def executedTasks (feed : Feed) : List SearchTask := (runPhase1 feed).2

/-- The persisted URL-phase output rows. -/
def phase1Rows (feed : Feed) : List UrlItem := (runPhase1 feed).1.2

/-- Every URL fed into the dedup loop during the run, in program order. -/
def phase1Items (feed : Feed) : List UrlItem :=
  allTasks.flatMap (fun t => taskItems feed t.1 t.2.1 t.2.2)

/-- Accepted rows of a given query type (category), used by the
stopping-controller claim. -/
def countCat (rows : List UrlItem) (q : String) : Nat :=
  (rows.filter (fun r => r.qtype = q)).length

/- ## First-occurrence dedup

Both dedup mechanisms of the pipeline (the phase-1 global URL set and the
phase-2 record-key set, as well as ebay's `dict.fromkeys`) keep the first
occurrence of each key.  `dedupFirstBy f seen l` is the generic device:
drop every element whose key under `f` was already seen. -/

def dedupFirstBy {α κ : Type} [DecidableEq κ] (f : α → κ) :
    List κ → List α → List α
  | _, [] => []
  | seen, a :: t =>
    if f a ∈ seen then dedupFirstBy f seen t
    else a :: dedupFirstBy f (f a :: seen) t

/- ## Phase 2: detail extraction (`scrape_urls_products.py`, `main`)

Each input row carries the scrape outcome for its URL: `none` models the
`except Exception: continue` path, `some (title, rawImgs)` the raw title
and raw image candidate list the adapter produced (the adapter returns
`pad_images` of the raw list; the model applies `pad_images` at the same
point). -/

/-- One row of the URL CSV together with its scrape outcome.  `source` is
the resolved source string (`(row.get("Source") or domain_of(url)).strip()`);
the claims quantify over arbitrary source strings, so the resolution
itself is abstracted as a field. -/
structure UrlRow where
  url : String
  source : String
  brand : String
  result : Option (String × List String)
deriving DecidableEq, Repr

/-- One output record of the detail phase (`rows_out.append({...})`). -/
structure ProductRecord where
  url : String
  source : String
  brand : String
  product_id : String
  title : String
  product_type : String
  img1 : String
  img2 : String
  img3 : String
  img4 : String
deriving DecidableEq, Repr

/-- The record dedup key: (source, brand, trimmed title). -/
abbrev RecKey := String × String × String

/-- Python `f"{idx:03d}"`: decimal, zero-padded to width 3. -/
def pad3 (n : Nat) : String :=
  if (toString n).length < 3 then
    String.mk (List.replicate (3 - (toString n).length) '0') ++ toString n
  else toString n

/-- Build the output record exactly as the `rows_out.append` call does. -/
def mkRecord (idx : Nat) (row : UrlRow) (title ptype : String)
    (imgs : List String) : ProductRecord :=
  { url := row.url, source := row.source, brand := row.brand,
    product_id := row.source ++ "_" ++ row.brand ++ "_" ++ pad3 idx,
    title := title, product_type := ptype,
    img1 := imgs.getD 0 "", img2 := imgs.getD 1 "",
    img3 := imgs.getD 2 "", img4 := imgs.getD 3 "" }

/-- The dedup key of a persisted record. -/
def keyOf (r : ProductRecord) : RecKey := (r.source, r.brand, trimStr r.title)

/-- The body of the phase-2 loop for one indexed row: skip on scrape
failure, skip when no image slot is non-empty, skip `Other` titles, skip
duplicate (source, brand, trimmed title) keys, otherwise record the key
and append the record. -/
def step2 (st : List RecKey × List ProductRecord) (item : Nat × UrlRow) :
    List RecKey × List ProductRecord :=
  match item.2.result with
  | none => st
  | some (title, rawImgs) =>
    if (pad_images rawImgs).any (fun s => s ≠ "") then
      if classify_product_type title = "Other" then st
      else if (item.2.source, item.2.brand, trimStr title) ∈ st.1 then st
      else ((item.2.source, item.2.brand, trimStr title) :: st.1,
            st.2 ++ [mkRecord item.1 item.2 title (classify_product_type title)
              (pad_images rawImgs)])
    else st

/-- `enumerate(url_rows, 1)`. -/
def enumFrom {α : Type} : Nat → List α → List (Nat × α)
  | _, [] => []
  | n, a :: t => (n, a) :: enumFrom (n + 1) t

/-- The phase-2 run: fold the loop body over the enumerated rows and
return the persisted records. -/
def process2 (rows : List UrlRow) : List ProductRecord :=
  (List.foldl step2 ([], []) (enumFrom 1 rows)).2

/-- The records the phase-2 loop would produce with the key-dedup check
removed (every other filter kept, indices kept).  Spec-side device used
to state that the persisted output keeps exactly the first record of
each key. -/
def extractedNoDedup : Nat → List UrlRow → List ProductRecord
  | _, [] => []
  | n, row :: rest =>
    match row.result with
    | none => extractedNoDedup (n + 1) rest
    | some (title, rawImgs) =>
      if (pad_images rawImgs).any (fun s => s ≠ "") then
        if classify_product_type title = "Other" then extractedNoDedup (n + 1) rest
        else mkRecord n row title (classify_product_type title)
          (pad_images rawImgs) :: extractedNoDedup (n + 1) rest
      else extractedNoDedup (n + 1) rest

/- ## Parsed pages (`Soup`)

A parsed document is modelled by the results of the queries the adapters
make against it. -/

/-- Selector-query results on one parsed page.  `none` means the element
(or its attribute) is absent; `some c` carries the raw attribute or text
value. -/
structure Soup where
  /-- Content attribute of the og:title meta tag. -/
  ogTitle : Option String
  /-- Content attribute of the og:image meta tag. -/
  ogImage : Option String
  /-- Stripped text of amazon's `#productTitle` element, if present. -/
  productTitleEl : Option String
  /-- Stripped text of each of ebay's four fallback title selectors, in
  selector order; `none` where the selector matched nothing. -/
  ebaySel : List (Option String)
  /-- The document's own title string, if present. -/
  docTitle : Option String
  /-- `src` of ebay's active carousel image, if the element and attribute
  are present. -/
  ebayActiveImg : Option String
  /-- `src` of every `img` element in document order (empty string where
  the attribute is missing, as `img.get("src") or ""`). -/
  imgSrcs : List String
deriving DecidableEq, Repr

/-- `get_og_title_and_image` from `scrape_urls_products.py`: each og value
is used only when the tag exists and its content attribute is truthy, and
is stripped. -/
def get_og_title_and_image (s : Soup) : String × String :=
  (match s.ogTitle with
   | some c => if c ≠ "" then trimStr c else ""
   | none => "",
   match s.ogImage with
   | some c => if c ≠ "" then trimStr c else ""
   | none => "")

/-- Title resolution of `scrape_amazon` (lines 103-108): og:title first,
then `#productTitle`. -/
def amazon_title (s : Soup) : String :=
  if (get_og_title_and_image s).1 = "" then
    match s.productTitleEl with
    | some txt => txt
    | none => (get_og_title_and_image s).1
  else (get_og_title_and_image s).1

/-- The selector fallback loop of `scrape_ebay`: first selector whose
element exists and has non-empty stripped text wins. -/
def firstNonEmptySel : List (Option String) → String
  | [] => ""
  | none :: t => firstNonEmptySel t
  | some txt :: t => if txt ≠ "" then txt else firstNonEmptySel t

/-- Title resolution of `scrape_ebay` (lines 165-178): og:title first,
then the four-selector fallback chain. -/
def ebay_title (s : Soup) : String :=
  if (get_og_title_and_image s).1 = "" then firstNonEmptySel s.ebaySel
  else (get_og_title_and_image s).1

/-- Title resolution of `scrape_lazada` (lines 139-141): og:title first,
then the document's own title. -/
def lazada_title (s : Soup) : String :=
  if (get_og_title_and_image s).1 = "" then
    match s.docTitle with
    | some d => trimStr d
    | none => (get_og_title_and_image s).1
  else (get_og_title_and_image s).1

/-- The image candidates `scrape_ebay` discovers, in discovery order:
og:image first (it is inserted at position 0), then the active carousel
image, then every `img` whose src contains `i.ebayimg.com`. -/
def ebay_discovered (s : Soup) : List String :=
  (if (get_og_title_and_image s).2 ≠ "" then [(get_og_title_and_image s).2] else []) ++
  ((match s.ebayActiveImg with
    | some src => if src ≠ "" then [src] else []
    | none => []) ++
   s.imgSrcs.filter (fun src => strIn "i.ebayimg.com" src))

/-- Image sequence of `scrape_ebay` (lines 180-196): discovery list,
first-occurrence dedup (`dict.fromkeys`), then `pad_images`. -/
def ebay_images (s : Soup) : List String :=
  pad_images (dedupFirstBy id [] (ebay_discovered s))

/-- The image candidates `scrape_lazada` discovers, in discovery order:
og:image first (inserted at position 0), then every `img` whose lowered
src mentions slatic.net or lazada and is not a sprite or logo. -/
def lazada_discovered (s : Soup) : List String :=
  (if (get_og_title_and_image s).2 ≠ "" then [(get_og_title_and_image s).2] else []) ++
  s.imgSrcs.filter (fun src =>
    (strIn "slatic.net" (lowerStr src) || strIn "lazada" (lowerStr src)) &&
    !(strIn "sprite" (lowerStr src) || strIn "logo" (lowerStr src)))

/-- Image sequence of `scrape_lazada` (lines 143-155): discovery list,
then `pad_images`; no dedup step. -/
def lazada_images (s : Soup) : List String :=
  pad_images (lazada_discovered s)

/- ## Helper lemmas -/

theorem stripQuery_cons_of (c : Char) (t : List Char) (h : (c != '?') = true) :
    stripQuery (c :: t) = c :: stripQuery t := by
  simp [stripQuery, List.takeWhile_cons, h]

theorem stripQuery_idem (l : List Char) :
    stripQuery (stripQuery l) = stripQuery l :=
  List.takeWhile_idem

theorem startsSlashSlash_of_startsSlash (l : List Char)
    (h : startsSlash l = false) : startsSlashSlash l = false := by
  match l with
  | [] => rfl
  | [_] => rfl
  | c :: _ :: _ =>
    have hc : (c == '/') = false := h
    simp [startsSlashSlash, hc]

theorem startsSlash_stripQuery (l : List Char) (h : startsSlash l = false) :
    startsSlash (stripQuery l) = false := by
  cases l with
  | nil => rfl
  | cons c t =>
    have hc : (c == '/') = false := h
    by_cases hq : c = '?'
    · subst hq
      have hnil : stripQuery ('?' :: t) = [] := rfl
      rw [hnil]
      rfl
    · have hq2 : (c != '?') = true := by
        rw [bne_iff_ne]
        exact hq
      rw [stripQuery_cons_of c t hq2]
      exact hc

theorem normalizeHref_stable (base x : List Char) (hx : startsSlash x = false) :
    normalizeHref base (stripQuery x) = stripQuery x := by
  have h1 : startsSlash (stripQuery x) = false := startsSlash_stripQuery x hx
  have h2 : startsSlashSlash (stripQuery x) = false :=
    startsSlashSlash_of_startsSlash _ h1
  simp only [normalizeHref, h1, h2, Bool.false_eq_true, if_false]
  exact stripQuery_idem x

/- ## Claim theorems -/

/-- Claim C5: for every raw image candidate list, the extraction-result
image sequence produced by `pad_images` has length exactly 4, and the
slots after the kept candidates are exactly a block of empty strings. -/
theorem pad_images_fixed_width (imgs : List String) :
    (pad_images imgs).length = 4 ∧
    (pad_images imgs).drop ((imgs.filter (fun i => i ≠ "")).take 4).length =
      List.replicate (4 - ((imgs.filter (fun i => i ≠ "")).take 4).length) "" := by
  constructor
  · simp [pad_images]
  · exact List.drop_left _ _

/-- Claim C1: `classify_product_type` returns `Other` on an empty title,
and otherwise returns the first of the ordered groups Printer, Toner, Ink
whose keyword list has a case-insensitive substring match in the title
(`Other` when none matches); in particular any title matching a printer
keyword is classified `Printer` no matter which other groups also match. -/
theorem classifier_ordered_match (t : String) :
    (t = "" → classify_product_type t = "Other") ∧
    (t ≠ "" → classify_product_type t =
      (if kwMatch printer_keywords t then "Printer"
       else if kwMatch toner_keywords t then "Toner"
       else if kwMatch ink_keywords t then "Ink"
       else "Other")) ∧
    (t ≠ "" → kwMatch printer_keywords t = true →
      classify_product_type t = "Printer") := by
  refine ⟨fun h => by simp [classify_product_type, h], fun h => ?_, fun h hp => ?_⟩
  · simp [classify_product_type, kwMatch, h]
  · have hp2 : printer_keywords.any (fun k => strIn k (lowerStr t)) = true := hp
    simp [classify_product_type, h, hp2]

/-- Witness for C1 at the spec's tie-break example: the title matches both
a printer keyword and a toner keyword and is classified `Printer`. -/
theorem classifier_ordered_match_app :
    ("All-in-one printer with toner refill" : String) ≠ "" ∧
    kwMatch toner_keywords "All-in-one printer with toner refill" = true ∧
    classify_product_type "All-in-one printer with toner refill" = "Printer" := by
  refine ⟨by decide, by decide, ?_⟩
  exact (classifier_ordered_match "All-in-one printer with toner refill").2.2
    (by decide) (by decide)

/-- Claim C8: href canonicalization (protocol-relative resolution, then
root-relative resolution against the source base origin, then query-string
truncation) is idempotent, for any base origin that is not itself
root-relative. -/
theorem normalize_idempotent (base : List Char) (hb : startsSlash base = false)
    (href : List Char) :
    normalizeHref base (normalizeHref base href) = normalizeHref base href := by
  by_cases h2 : startsSlashSlash href = true
  · have hinner : normalizeHref base href = stripQuery ("https:".data ++ href) := by
      simp [normalizeHref, h2]
    rw [hinner]
    refine normalizeHref_stable base _ ?_
    show startsSlash ('h' :: ("ttps:".data ++ href)) = false
    rfl
  · by_cases h1 : startsSlash href = true
    · have hinner : normalizeHref base href = stripQuery (base ++ href) := by
        simp [normalizeHref, h2, h1]
      rw [hinner]
      cases base with
      | cons c bs =>
        refine normalizeHref_stable _ _ ?_
        have hc : (c == '/') = false := hb
        exact hc
      | nil =>
        simp only [List.nil_append]
        obtain ⟨t, rfl⟩ : ∃ t, href = '/' :: t := by
          cases href with
          | nil => exact absurd h1 (by decide)
          | cons c t =>
            have hc : (c == '/') = true := h1
            exact ⟨t, by rw [eq_of_beq hc]⟩
        have hr : stripQuery ('/' :: t) = '/' :: stripQuery t :=
          stripQuery_cons_of _ _ (by decide)
        rw [hr]
        have hsw2 : startsSlashSlash ('/' :: stripQuery t) = false := by
          cases t with
          | nil => rfl
          | cons d t2 =>
            have hd : (d == '/') = false := by
              have := h2
              simpa [startsSlashSlash] using this
            by_cases hq : d = '?'
            · subst hq
              have hnil : stripQuery ('?' :: t2) = [] := rfl
              rw [hnil]
              rfl
            · have hq2 : (d != '?') = true := by
                rw [bne_iff_ne]
                exact hq
              rw [stripQuery_cons_of d t2 hq2]
              simp [startsSlashSlash, hd]
        have hsw1 : startsSlash ('/' :: stripQuery t) = true := rfl
        simp only [normalizeHref, hsw2, hsw1, Bool.false_eq_true, if_false, if_true,
          List.nil_append]
        rw [← hr]
        exact stripQuery_idem _
    · have hinner : normalizeHref base href = stripQuery href := by
        simp [normalizeHref, h2, h1]
      rw [hinner]
      exact normalizeHref_stable base href (by
        cases h : startsSlash href
        · rfl
        · exact absurd h h1)

/-- Witness for C8: idempotence applied with the AliExpress base origin to
a root-relative href carrying a query string. -/
theorem normalize_idempotent_app :
    startsSlash aliBase = false ∧
    normalizeHref aliBase
        (normalizeHref aliBase "/item/1005007.html?spm=a2g0o".data) =
      normalizeHref aliBase "/item/1005007.html?spm=a2g0o".data := by
  refine ⟨by decide, ?_⟩
  exact normalize_idempotent aliBase (by decide) _

theorem dedupFirstBy_map_nodup {α κ : Type} [DecidableEq κ] (f : α → κ) :
    ∀ (seen : List κ) (l : List α),
      ((dedupFirstBy f seen l).map f).Nodup ∧
      ∀ a ∈ dedupFirstBy f seen l, f a ∉ seen := by
  intro seen l
  induction l generalizing seen with
  | nil => simp [dedupFirstBy]
  | cons a t ih =>
    by_cases h : f a ∈ seen
    · simp only [dedupFirstBy, if_pos h]
      exact ih seen
    · simp only [dedupFirstBy, if_neg h]
      obtain ⟨ihn, ihm⟩ := ih (f a :: seen)
      constructor
      · simp only [List.map_cons, List.nodup_cons]
        refine ⟨?_, ihn⟩
        intro hmem
        obtain ⟨b, hb, hfb⟩ := List.mem_map.mp hmem
        exact ihm b hb (by rw [hfb]; exact List.mem_cons_self _ _)
      · intro b hb
        rcases List.mem_cons.mp hb with rfl | hb2
        · exact h
        · exact fun hbs => ihm b hb2 (List.mem_cons_of_mem _ hbs)

theorem dedupFirstBy_sublist {α κ : Type} [DecidableEq κ] (f : α → κ) :
    ∀ (seen : List κ) (l : List α), List.Sublist (dedupFirstBy f seen l) l := by
  intro seen l
  induction l generalizing seen with
  | nil => simp [dedupFirstBy]
  | cons a t ih =>
    by_cases h : f a ∈ seen
    · simp only [dedupFirstBy, if_pos h]
      exact (ih seen).cons a
    · simp only [dedupFirstBy, if_neg h]
      exact (ih (f a :: seen)).cons₂ a

theorem dedupFirstBy_filter_of_mem {α κ : Type} [DecidableEq κ] (f : α → κ)
    (k : κ) (seen : List κ) (l : List α) (hk : k ∈ seen) :
    (dedupFirstBy f seen l).filter (fun a => f a = k) = [] := by
  refine List.filter_eq_nil_iff.mpr ?_
  intro a ha
  have hns := (dedupFirstBy_map_nodup f seen l).2 a ha
  simp only [decide_eq_true_eq]
  intro hfa
  rw [hfa] at hns
  exact hns hk

theorem dedupFirstBy_filter_first {α κ : Type} [DecidableEq κ] (f : α → κ)
    (k : κ) :
    ∀ (seen : List κ) (l : List α), k ∉ seen →
      (dedupFirstBy f seen l).filter (fun a => f a = k) =
        (l.filter (fun a => f a = k)).take 1 := by
  intro seen l
  induction l generalizing seen with
  | nil => intro _; simp [dedupFirstBy]
  | cons a t ih =>
    intro hk
    by_cases h : f a ∈ seen
    · have hak : ¬(f a = k) := fun he => hk (he ▸ h)
      simp only [dedupFirstBy, if_pos h]
      rw [ih seen hk]
      simp [List.filter_cons, hak]
    · simp only [dedupFirstBy, if_neg h]
      by_cases hak : f a = k
      · have h1 : (dedupFirstBy f (k :: seen) t).filter (fun b => f b = k) = [] :=
          dedupFirstBy_filter_of_mem f k _ t (List.mem_cons_self _ _)
        simp [List.filter_cons, hak, h1]
      · have hk2 : k ∉ f a :: seen := by
          intro hmem
          rcases List.mem_cons.mp hmem with rfl | h2
          · exact hak rfl
          · exact hk h2
        have hpa : (decide (f a = k)) = false := by simp [hak]
        rw [List.filter_cons, List.filter_cons, hpa]
        simp only [Bool.false_eq_true, if_false]
        exact ih (f a :: seen) hk2

theorem dedupFirstBy_id_toFinset {α : Type} [DecidableEq α] :
    ∀ (seen l : List α),
      (dedupFirstBy id seen l).toFinset = l.toFinset \ seen.toFinset := by
  intro seen l
  induction l generalizing seen with
  | nil => simp [dedupFirstBy]
  | cons a t ih =>
    by_cases h : a ∈ seen
    · simp only [dedupFirstBy, id, if_pos h]
      rw [ih seen]
      ext x
      simp only [Finset.mem_sdiff, List.toFinset_cons, Finset.mem_insert,
        List.mem_toFinset]
      constructor
      · rintro ⟨hx, hxs⟩
        exact ⟨Or.inr hx, hxs⟩
      · rintro ⟨hor, hxs⟩
        rcases hor with rfl | hx
        · exact absurd h hxs
        · exact ⟨hx, hxs⟩
    · simp only [dedupFirstBy, id, if_neg h]
      rw [List.toFinset_cons, ih (a :: seen)]
      ext x
      simp only [Finset.mem_sdiff, List.toFinset_cons, Finset.mem_insert,
        List.mem_toFinset, List.mem_cons]
      constructor
      · rintro (rfl | ⟨hx, hxs⟩)
        · exact ⟨Or.inl rfl, h⟩
        · exact ⟨Or.inr hx, fun hs => hxs (Or.inr hs)⟩
      · rintro ⟨hor, hxs⟩
        rcases hor with rfl | hx
        · exact Or.inl rfl
        · by_cases hxa : x = a
          · exact Or.inl hxa
          · exact Or.inr ⟨hx, fun hs => (hs.elim hxa fun h2 => hxs h2)⟩

theorem foldl_phase1Step (feed : Feed) :
    ∀ (tasks : List SearchTask) (st : (List String × List UrlItem) × List SearchTask),
      List.foldl (phase1Step feed) st tasks =
        (List.foldl step1 st.1
          (tasks.flatMap (fun t => taskItems feed t.1 t.2.1 t.2.2)),
         st.2 ++ tasks) := by
  intro tasks
  induction tasks with
  | nil => intro st; simp
  | cons t ts ih =>
    intro st
    rw [List.foldl_cons, ih]
    simp [phase1Step, List.foldl_append]

theorem foldl_step1_map_url :
    ∀ (items : List UrlItem) (seen : List String) (out : List UrlItem),
      (List.foldl step1 (seen, out) items).2.map (fun r => r.url) =
        out.map (fun r => r.url) ++
          dedupFirstBy id seen (items.map (fun r => r.url)) := by
  intro items
  induction items with
  | nil => intro seen out; simp [dedupFirstBy]
  | cons it ts ih =>
    intro seen out
    rw [List.foldl_cons]
    by_cases h : it.url ∈ seen
    · have hstep : step1 (seen, out) it = (seen, out) := by simp [step1, h]
      rw [hstep, ih]
      simp [dedupFirstBy, h]
    · have hstep : step1 (seen, out) it = (it.url :: seen, out ++ [it]) := by
        simp [step1, h]
      rw [hstep, ih]
      simp [dedupFirstBy, h]

theorem phase1Rows_eq (feed : Feed) :
    phase1Rows feed = (List.foldl step1 ([], []) (phase1Items feed)).2 := by
  unfold phase1Rows runPhase1 phase1Items
  rw [foldl_phase1Step feed allTasks (([], []), [])]

/-- Claim C2 (amended): the URL-discovery orchestrator has no stopping
controller at all.  Whatever the collectors return — even a feed that
satisfies any per-category target early — the loop body is executed for
every enumerated (brand, query-type, keyword-variant) search task; only
exhaustion of the full task list leads to output. -/
theorem orchestrator_runs_all_tasks (feed : Feed) :
    executedTasks feed = allTasks := by
  unfold executedTasks runPhase1
  rw [foldl_phase1Step feed allTasks (([], []), [])]
  simp

/-- A feed with which the per-category counts {printer 2, toner 2, ink 2}
are all reached after the 10th keyword-variant task completes. -/
def earlySatFeed : Feed := fun b k src =>
  if b = "Brother" ∧ src = "amazon" then
    (if k = "printer" then ["https://p1", "https://p2"]
     else if k = "toner" then ["https://t1", "https://t2"]
     else if k = "ink" then ["https://i1", "https://i2"]
     else [])
  else []

set_option maxRecDepth 40000 in
/-- Counterexample to claim C2 as stated: with `earlySatFeed`, every
category count has reached the target 2 once the first 10 keyword-variant
tasks have completed, yet the orchestrator still executes a remaining
task — ("Brother", "ink", "ink cartridge"), the 11th task — instead of
proceeding directly to output. -/
theorem stopping_controller_cex :
    2 ≤ countCat (List.foldl (phase1Step earlySatFeed) (([], []), [])
        (allTasks.take 10)).1.2 "printer" ∧
    2 ≤ countCat (List.foldl (phase1Step earlySatFeed) (([], []), [])
        (allTasks.take 10)).1.2 "toner" ∧
    2 ≤ countCat (List.foldl (phase1Step earlySatFeed) (([], []), [])
        (allTasks.take 10)).1.2 "ink" ∧
    ("Brother", "ink", "ink cartridge") ∉ allTasks.take 10 ∧
    ("Brother", "ink", "ink cartridge") ∈ executedTasks earlySatFeed := by
  decide

/-- Claim C4: in the URL-discovery phase no canonical URL appears twice in
the persisted output, a URL already in the run's global seen set is never
appended again (the loop body is the identity on such a URL), and the
number of output rows equals the number of distinct canonical URLs fed in. -/
theorem url_phase_global_dedup (feed : Feed) :
    ((phase1Rows feed).map (fun r => r.url)).Nodup ∧
    (phase1Rows feed).length =
      ((phase1Items feed).map (fun r => r.url)).toFinset.card ∧
    ∀ (st : List String × List UrlItem) (it : UrlItem),
      it.url ∈ st.1 → step1 st it = st := by
  have hmap : (phase1Rows feed).map (fun r => r.url) =
      dedupFirstBy id [] ((phase1Items feed).map (fun r => r.url)) := by
    rw [phase1Rows_eq feed, foldl_step1_map_url (phase1Items feed) [] []]
    simp
  have hnody : ((phase1Rows feed).map (fun r => r.url)).Nodup := by
    rw [hmap]
    have h := (dedupFirstBy_map_nodup id []
      ((phase1Items feed).map (fun r => r.url))).1
    rwa [List.map_id] at h
  refine ⟨hnody, ?_, ?_⟩
  · have hlen : (phase1Rows feed).length =
        ((phase1Rows feed).map (fun r => r.url)).length :=
      (List.length_map _ _).symm
    rw [hlen, hmap]
    have hfin := dedupFirstBy_id_toFinset ([] : List String)
      ((phase1Items feed).map (fun r => r.url))
    have hnod : (dedupFirstBy id []
        ((phase1Items feed).map (fun r => r.url))).Nodup := by
      have h := (dedupFirstBy_map_nodup id []
        ((phase1Items feed).map (fun r => r.url))).1
      rwa [List.map_id] at h
    rw [← List.toFinset_card_of_nodup hnod, hfin]
    simp
  · intro st it h
    simp [step1, h]

/-- Witness for C4's seen-set clause: a URL already in the global seen set
leaves the state untouched. -/
theorem url_phase_global_dedup_app :
    step1 (["https://www.amazon.sg/dp/B0"], [])
        { url := "https://www.amazon.sg/dp/B0", source := "amazon",
          brand := "HP", qtype := "printer" } =
      (["https://www.amazon.sg/dp/B0"], []) :=
  (url_phase_global_dedup (fun _ _ _ => [])).2.2 _ _ (by decide)

theorem extractedNoDedup_cons_none (n : Nat) (row : UrlRow) (rest : List UrlRow)
    (h : row.result = none) :
    extractedNoDedup n (row :: rest) = extractedNoDedup (n + 1) rest := by
  simp only [extractedNoDedup, h]

theorem extractedNoDedup_cons_skip (n : Nat) (row : UrlRow) (rest : List UrlRow)
    (title : String) (rawImgs : List String)
    (h : row.result = some (title, rawImgs))
    (himg : ¬((pad_images rawImgs).any (fun s => s ≠ "") = true)) :
    extractedNoDedup n (row :: rest) = extractedNoDedup (n + 1) rest := by
  simp only [extractedNoDedup, h]
  rw [if_neg himg]

theorem extractedNoDedup_cons_other (n : Nat) (row : UrlRow) (rest : List UrlRow)
    (title : String) (rawImgs : List String)
    (h : row.result = some (title, rawImgs))
    (himg : (pad_images rawImgs).any (fun s => s ≠ "") = true)
    (hcls : classify_product_type title = "Other") :
    extractedNoDedup n (row :: rest) = extractedNoDedup (n + 1) rest := by
  simp only [extractedNoDedup, h]
  rw [if_pos himg, if_pos hcls]

theorem extractedNoDedup_cons_keep (n : Nat) (row : UrlRow) (rest : List UrlRow)
    (title : String) (rawImgs : List String)
    (h : row.result = some (title, rawImgs))
    (himg : (pad_images rawImgs).any (fun s => s ≠ "") = true)
    (hcls : ¬classify_product_type title = "Other") :
    extractedNoDedup n (row :: rest) =
      mkRecord n row title (classify_product_type title) (pad_images rawImgs) ::
        extractedNoDedup (n + 1) rest := by
  simp only [extractedNoDedup, h]
  rw [if_pos himg, if_neg hcls]

theorem foldl_step2_eq :
    ∀ (rows : List UrlRow) (n : Nat) (seen : List RecKey)
      (out : List ProductRecord),
      (List.foldl step2 (seen, out) (enumFrom n rows)).2 =
        out ++ dedupFirstBy keyOf seen (extractedNoDedup n rows) := by
  intro rows
  induction rows with
  | nil => intro n seen out; simp [enumFrom, extractedNoDedup, dedupFirstBy]
  | cons row rest ih =>
    intro n seen out
    simp only [enumFrom, List.foldl_cons]
    cases hres : row.result with
    | none =>
      have hstep : step2 (seen, out) (n, row) = (seen, out) := by
        simp [step2, hres]
      rw [hstep, ih, extractedNoDedup_cons_none n row rest hres]
    | some pr =>
      obtain ⟨title, rawImgs⟩ := pr
      by_cases himg : (pad_images rawImgs).any (fun s => s ≠ "") = true
      · by_cases hcls : classify_product_type title = "Other"
        · have hstep : step2 (seen, out) (n, row) = (seen, out) := by
            simp only [step2, hres]
            rw [if_pos himg, if_pos hcls]
          rw [hstep, ih, extractedNoDedup_cons_other n row rest title rawImgs
            hres himg hcls]
        · have hkeyrec : keyOf (mkRecord n row title (classify_product_type title)
              (pad_images rawImgs)) = (row.source, row.brand, trimStr title) := rfl
          by_cases hkey : (row.source, row.brand, trimStr title) ∈ seen
          · have hstep : step2 (seen, out) (n, row) = (seen, out) := by
              simp only [step2, hres]
              rw [if_pos himg, if_neg hcls, if_pos hkey]
            have hded : dedupFirstBy keyOf seen
                (extractedNoDedup n (row :: rest)) =
                dedupFirstBy keyOf seen (extractedNoDedup (n + 1) rest) := by
              rw [extractedNoDedup_cons_keep n row rest title rawImgs hres himg hcls]
              simp only [dedupFirstBy]
              rw [hkeyrec, if_pos hkey]
            rw [hstep, ih, hded]
          · have hstep : step2 (seen, out) (n, row) =
                ((row.source, row.brand, trimStr title) :: seen,
                 out ++ [mkRecord n row title (classify_product_type title)
                   (pad_images rawImgs)]) := by
              simp only [step2, hres]
              rw [if_pos himg, if_neg hcls, if_neg hkey]
            have hded : dedupFirstBy keyOf seen
                (extractedNoDedup n (row :: rest)) =
                mkRecord n row title (classify_product_type title)
                    (pad_images rawImgs) ::
                  dedupFirstBy keyOf ((row.source, row.brand, trimStr title) :: seen)
                    (extractedNoDedup (n + 1) rest) := by
              rw [extractedNoDedup_cons_keep n row rest title rawImgs hres himg hcls]
              simp only [dedupFirstBy]
              rw [hkeyrec, if_neg hkey]
            rw [hstep, ih, hded]
            simp
      · have hstep : step2 (seen, out) (n, row) = (seen, out) := by
          simp only [step2, hres]
          rw [if_neg himg]
        rw [hstep, ih, extractedNoDedup_cons_skip n row rest title rawImgs hres himg]

theorem process2_eq (rows : List UrlRow) :
    process2 rows = dedupFirstBy keyOf [] (extractedNoDedup 1 rows) := by
  unfold process2
  rw [foldl_step2_eq rows 1 [] []]
  simp

/-- Claim C3: per run of the detail-extraction phase, at most one record
per (source, brand, trimmed title) key reaches the output, and the record
kept for a key is exactly the first record the loop accepts with that key
(later ones are discarded, never overwrite it). -/
theorem record_dedup_first_seen (rows : List UrlRow) (k : RecKey) :
    ((process2 rows).map keyOf).Nodup ∧
    (process2 rows).filter (fun r => keyOf r = k) =
      ((extractedNoDedup 1 rows).filter (fun r => keyOf r = k)).take 1 := by
  rw [process2_eq rows]
  constructor
  · exact (dedupFirstBy_map_nodup keyOf [] _).1
  · exact dedupFirstBy_filter_first keyOf k [] _ (by simp)

/-- Claim C9: a scrape failure for one URL is a skip of exactly that URL:
the loop body leaves the record-dedup set and the output untouched, and
the fold continues over the remaining rows exactly as if only that row
had been dropped (its index still consumed). -/
theorem extraction_failure_skip (seen : List RecKey) (out : List ProductRecord)
    (n : Nat) (row : UrlRow) (rest : List UrlRow)
    (hfail : row.result = none) :
    step2 (seen, out) (n, row) = (seen, out) ∧
    List.foldl step2 (seen, out) (enumFrom n (row :: rest)) =
      List.foldl step2 (seen, out) (enumFrom (n + 1) rest) := by
  have hstep : step2 (seen, out) (n, row) = (seen, out) := by
    simp [step2, hfail]
  exact ⟨hstep, by simp only [enumFrom, List.foldl_cons, hstep]⟩

/-- Row whose scrape raised (the caught-exception path). -/
def failRow : UrlRow :=
  { url := "https://www.ebay.com/itm/1", source := "ebay", brand := "HP",
    result := none }

/-- Witness for C9 at a concrete failing row and empty starting state. -/
theorem extraction_failure_skip_app :
    failRow.result = none ∧
    step2 ([], []) (1, failRow) = ([], []) ∧
    List.foldl step2 ([], []) (enumFrom 1 [failRow]) =
      List.foldl step2 ([], []) (enumFrom 2 []) := by
  have h := extraction_failure_skip [] [] 1 failRow [] rfl
  exact ⟨rfl, h.1, h.2⟩

theorem mem_extractedNoDedup (r : ProductRecord) :
    ∀ (n : Nat) (rows : List UrlRow), r ∈ extractedNoDedup n rows →
      ∃ (m : Nat) (row : UrlRow) (title : String) (rawImgs : List String),
        row.result = some (title, rawImgs) ∧
        (pad_images rawImgs).any (fun s => s ≠ "") = true ∧
        r = mkRecord m row title (classify_product_type title)
          (pad_images rawImgs) := by
  intro n rows
  induction rows generalizing n with
  | nil => intro h; simp [extractedNoDedup] at h
  | cons row rest ih =>
    intro h
    cases hres : row.result with
    | none =>
      rw [extractedNoDedup_cons_none n row rest hres] at h
      exact ih (n + 1) h
    | some pr =>
      obtain ⟨title, rawImgs⟩ := pr
      by_cases himg : (pad_images rawImgs).any (fun s => s ≠ "") = true
      · by_cases hcls : classify_product_type title = "Other"
        · rw [extractedNoDedup_cons_other n row rest title rawImgs hres himg hcls] at h
          exact ih (n + 1) h
        · rw [extractedNoDedup_cons_keep n row rest title rawImgs hres himg hcls] at h
          rcases List.mem_cons.mp h with rfl | h2
          · exact ⟨n, row, title, rawImgs, hres, himg, rfl⟩
          · exact ih (n + 1) h2
      · rw [extractedNoDedup_cons_skip n row rest title rawImgs hres himg] at h
        exact ih (n + 1) h

theorem getD_replicate_empty (p m : Nat) :
    (List.replicate p ("" : String)).getD m "" = "" := by
  induction p generalizing m with
  | zero => simp
  | succ q ih =>
    cases m with
    | zero => rfl
    | succ m2 => exact ih m2

theorem mem_take_filter_ne (raw : List String) (x : String)
    (hx : x ∈ (raw.filter (fun i => i ≠ "")).take 4) : x ≠ "" := by
  have hx2 : x ∈ raw.filter (fun i => i ≠ "") := List.mem_of_mem_take hx
  have hp := List.of_mem_filter hx2
  simpa using hp

theorem padded_getD (xs : List String) (p : Nat) (hxs : ∀ x ∈ xs, x ≠ "")
    (i j : Nat) (hij : i ≤ j)
    (hi : (xs ++ List.replicate p "").getD i "" = "") :
    (xs ++ List.replicate p "").getD j "" = "" := by
  have hik : xs.length ≤ i := by
    by_contra hlt
    push_neg at hlt
    have h1 : (xs ++ List.replicate p "").getD i "" = xs.getD i "" :=
      List.getD_append _ _ _ _ hlt
    have h2 : xs.getD i "" ∈ xs := by
      rw [List.getD_eq_getElem xs "" hlt]
      exact List.getElem_mem hlt
    exact hxs _ h2 (by rw [← h1]; exact hi)
  have hjk : xs.length ≤ j := le_trans hik hij
  rw [List.getD_append_right _ _ _ _ hjk]
  exact getD_replicate_empty p _

theorem pad_images_head_ne (raw : List String)
    (h : (pad_images raw).any (fun s => s ≠ "") = true) :
    (pad_images raw).getD 0 "" ≠ "" := by
  cases hk : (raw.filter (fun i => i ≠ "")).take 4 with
  | nil =>
    exfalso
    have hrep : pad_images raw = List.replicate 4 "" := by
      unfold pad_images
      rw [hk]
      rfl
    rw [hrep] at h
    exact absurd h (by decide)
  | cons x xs =>
    have hx : x ≠ "" :=
      mem_take_filter_ne raw x (by rw [hk]; exact List.mem_cons_self _ _)
    have hhead : (pad_images raw).getD 0 "" = x := by
      unfold pad_images
      rw [hk]
      rfl
    rw [hhead]
    exact hx

theorem quad_of_length_four (l : List String) (h : l.length = 4) :
    [l.getD 0 "", l.getD 1 "", l.getD 2 "", l.getD 3 ""] = l := by
  cases l with
  | nil => simp at h
  | cons a l1 =>
    cases l1 with
    | nil => simp at h
    | cons b l2 =>
      cases l2 with
      | nil => simp at h
      | cons c l3 =>
        cases l3 with
        | nil => simp at h
        | cons d l4 =>
          cases l4 with
          | nil => rfl
          | cons e l5 => simp at h

/-- Claim C10: in every persisted record the non-empty image URLs form a
prefix of the four image slots (an empty slot is never followed by a
non-empty one), and the first slot is always non-empty because a result
with no non-empty image candidate is skipped before persistence. -/
theorem persisted_images_front (rows : List UrlRow) (r : ProductRecord)
    (hr : r ∈ process2 rows) :
    r.img1 ≠ "" ∧
    ∀ i j : Nat, i ≤ j →
      [r.img1, r.img2, r.img3, r.img4].getD i "" = "" →
      [r.img1, r.img2, r.img3, r.img4].getD j "" = "" := by
  rw [process2_eq rows] at hr
  have hr2 : r ∈ extractedNoDedup 1 rows :=
    (dedupFirstBy_sublist keyOf [] _).subset hr
  obtain ⟨m, row, title, rawImgs, hres, himg, rfl⟩ :=
    mem_extractedNoDedup r 1 rows hr2
  have hlen : (pad_images rawImgs).length = 4 := by simp [pad_images]
  have hquad : [(mkRecord m row title (classify_product_type title)
        (pad_images rawImgs)).img1,
      (mkRecord m row title (classify_product_type title) (pad_images rawImgs)).img2,
      (mkRecord m row title (classify_product_type title) (pad_images rawImgs)).img3,
      (mkRecord m row title (classify_product_type title) (pad_images rawImgs)).img4] =
      pad_images rawImgs :=
    quad_of_length_four (pad_images rawImgs) hlen
  constructor
  · exact pad_images_head_ne rawImgs himg
  · intro i j hij hi
    rw [hquad] at hi ⊢
    exact padded_getD ((rawImgs.filter (fun i => i ≠ "")).take 4) _
      (fun x hx => mem_take_filter_ne rawImgs x hx) i j hij hi

/-- A ready input row whose scrape succeeded with a single image. -/
def sampleRow : UrlRow :=
  { url := "https://www.amazon.sg/dp/B1", source := "amazon", brand := "HP",
    result := some ("HP LaserJet printer", ["https://img/1.jpg"]) }

/-- The record the detail phase persists for `sampleRow`. -/
def sampleRec : ProductRecord :=
  { url := "https://www.amazon.sg/dp/B1", source := "amazon", brand := "HP",
    product_id := "amazon_HP_001", title := "HP LaserJet printer",
    product_type := "Printer", img1 := "https://img/1.jpg", img2 := "",
    img3 := "", img4 := "" }

/-- Witness for C10 on a concrete run producing one record. -/
theorem persisted_images_front_app :
    sampleRec ∈ process2 [sampleRow] ∧
    (sampleRec.img1 ≠ "" ∧
     ∀ i j : Nat, i ≤ j →
       [sampleRec.img1, sampleRec.img2, sampleRec.img3, sampleRec.img4].getD i "" = "" →
       [sampleRec.img1, sampleRec.img2, sampleRec.img3, sampleRec.img4].getD j "" = "") := by
  have hmem : sampleRec ∈ process2 [sampleRow] := by decide
  exact ⟨hmem, persisted_images_front [sampleRow] sampleRec hmem⟩

/-- Page on which both the generic og:title tag and the source-specific
primary selector produce a title. -/
def bothTitlesSoup : Soup :=
  { ogTitle := some "OG Product Title", ogImage := none,
    productTitleEl := some "Primary Product Title", ebaySel := [],
    docTitle := none, ebayActiveImg := none, imgSrcs := [] }

/-- Counterexample to claim C6 as stated: on a page where the
source-specific primary selector (`#productTitle`) yields a title, the
amazon adapter still returns the og:title value — the generic
shared-metadata tag is consulted first, not as a fallback. -/
theorem title_order_cex :
    bothTitlesSoup.productTitleEl = some "Primary Product Title" ∧
    amazon_title bothTitlesSoup = "OG Product Title" ∧
    amazon_title bothTitlesSoup ≠ "Primary Product Title" := by
  decide

/-- Claim C6 (amended): title resolution tries the generic shared-metadata
(og:title) tag first; the source-specific selectors are consulted only
when og:title yields nothing; and the document's own title is a final
fallback only in the lazada adapter (amazon and ebay never consult it). -/
theorem title_fallback_order (s : Soup) :
    ((get_og_title_and_image s).1 ≠ "" →
      amazon_title s = (get_og_title_and_image s).1 ∧
      ebay_title s = (get_og_title_and_image s).1 ∧
      lazada_title s = (get_og_title_and_image s).1) ∧
    ((get_og_title_and_image s).1 = "" →
      amazon_title s = s.productTitleEl.getD "" ∧
      ebay_title s = firstNonEmptySel s.ebaySel ∧
      lazada_title s = (s.docTitle.map trimStr).getD "") := by
  constructor
  · intro h
    refine ⟨?_, ?_, ?_⟩ <;> simp [amazon_title, ebay_title, lazada_title, h]
  · intro h
    refine ⟨?_, ?_, ?_⟩
    · cases hopt : s.productTitleEl <;> simp [amazon_title, h, hopt]
    · simp [ebay_title, h]
    · cases hopt : s.docTitle <;> simp [lazada_title, h, hopt]

/-- Page with no og:title, so the fallbacks are exercised. -/
def noOgSoup : Soup :=
  { ogTitle := none, ogImage := none,
    productTitleEl := some "Primary Product Title",
    ebaySel := [none, some "H1 item title"], docTitle := some " Doc Title ",
    ebayActiveImg := none, imgSrcs := [] }

/-- Witness for C6 (amended) on both sides: og:title wins when present;
with no og:title the source-specific fallbacks are used. -/
theorem title_fallback_order_app :
    ((get_og_title_and_image bothTitlesSoup).1 ≠ "" ∧
     amazon_title bothTitlesSoup = (get_og_title_and_image bothTitlesSoup).1) ∧
    ((get_og_title_and_image noOgSoup).1 = "" ∧
     amazon_title noOgSoup = noOgSoup.productTitleEl.getD "" ∧
     ebay_title noOgSoup = firstNonEmptySel noOgSoup.ebaySel ∧
     lazada_title noOgSoup = (noOgSoup.docTitle.map trimStr).getD "") := by
  refine ⟨⟨by decide, ?_⟩, by decide, ?_, ?_, ?_⟩
  · exact ((title_fallback_order bothTitlesSoup).1 (by decide)).1
  · exact ((title_fallback_order noOgSoup).2 (by decide)).1
  · exact ((title_fallback_order noOgSoup).2 (by decide)).2.1
  · exact ((title_fallback_order noOgSoup).2 (by decide)).2.2

theorem filter_replicate_empty (p : Nat) :
    (List.replicate p ("" : String)).filter (fun u => u ≠ "") = [] := by
  induction p with
  | zero => rfl
  | succ q ih => simp [List.replicate_succ, List.filter_cons, ih]

theorem filter_pad_images (l : List String) :
    (pad_images l).filter (fun u => u ≠ "") =
      (l.filter (fun u => u ≠ "")).take 4 := by
  unfold pad_images
  rw [List.filter_append, filter_replicate_empty, List.append_nil]
  refine List.filter_eq_self.mpr ?_
  intro x hx
  have := mem_take_filter_ne l x hx
  simpa using this

/-- Page on which the lazada adapter discovers the same image URL twice. -/
def dupImageSoup : Soup :=
  { ogTitle := none, ogImage := none, productTitleEl := none, ebaySel := [],
    docTitle := none, ebayActiveImg := none,
    imgSrcs := ["https://a.slatic.net/p.jpg", "https://a.slatic.net/p.jpg"] }

/-- Counterexample to claim C7 as stated: the lazada adapter performs no
dedup, so a page listing the same image URL twice yields an image
sequence whose non-empty slots contain an exact duplicate. -/
theorem image_dedup_cex :
    lazada_images dupImageSoup =
      ["https://a.slatic.net/p.jpg", "https://a.slatic.net/p.jpg", "", ""] ∧
    ¬((lazada_images dupImageSoup).filter (fun u => u ≠ "")).Nodup := by
  decide

/-- Claim C7 (amended): the ebay adapter's image sequence has no exact
duplicate URLs among its non-empty slots and preserves discovery order;
the lazada adapter preserves discovery order only — its non-empty slots
are a sublist of the discovery list, but exact duplicates are not
removed. -/
theorem image_dedup_order (s : Soup) :
    ((ebay_images s).filter (fun u => u ≠ "")).Nodup ∧
    List.Sublist ((ebay_images s).filter (fun u => u ≠ "")) (ebay_discovered s) ∧
    List.Sublist ((lazada_images s).filter (fun u => u ≠ ""))
      (lazada_discovered s) := by
  have he : (ebay_images s).filter (fun u => u ≠ "") =
      ((dedupFirstBy id [] (ebay_discovered s)).filter (fun u => u ≠ "")).take 4 := by
    unfold ebay_images
    exact filter_pad_images _
  have hnd : (dedupFirstBy id [] (ebay_discovered s)).Nodup := by
    have h := (dedupFirstBy_map_nodup id [] (ebay_discovered s)).1
    rwa [List.map_id] at h
  refine ⟨?_, ?_, ?_⟩
  · rw [he]
    exact (hnd.filter _).sublist (List.take_sublist _ _)
  · rw [he]
    exact ((List.take_sublist _ _).trans (List.filter_sublist _)).trans
      (dedupFirstBy_sublist id [] (ebay_discovered s))
  · have hl : (lazada_images s).filter (fun u => u ≠ "") =
        ((lazada_discovered s).filter (fun u => u ≠ "")).take 4 :=
      filter_pad_images _
    rw [hl]
    exact (List.take_sublist _ _).trans (List.filter_sublist _)
